import Mathlib

/-!
# Verification of the TMR triangularization core against its specification

This file shallowly embeds the parts of the TMR repository that the
specification's claims are about, and proves (or refutes) each claim.

Embedding conventions:
* C `double` values appear only through comparisons and exact arithmetic on the
  control paths we verify; they are modelled as rationals `ℚ`.
* C `int32_t` values are modelled as mathematical integers `ℤ` (the octant
  coordinates manipulated here stay far from the 32-bit boundaries, so wrap
  around never occurs on the modelled operations).
* Functions whose implementation is absent from the repository snapshot (only
  the class declarations in `TMRTriangularize.h` are present) are modelled
  from the specification; each such definition carries a doc comment starting
  with `Modelled from the spec:`.
-/

namespace TMR

/-! ## The TMREdgeMesh point-count computation (src/src/TMREdgeMesh.cpp)

In `TMREdgeMesh::mesh`, when the edge has no source and no copy edge
(`npts` is still `-1` when the point count is computed) and the edge is not
degenerate, the number of points is computed from the integrated distance
function by

```
npts = (int)(ceil(dist[nvals - 1]));
if (npts < 2) { npts = 2; }
if (npts % 2 != 1) { npts++; }
if ((v1 == v2) && npts < 5) { npts = 5; }
```
-/

/-- The `npts` computation of `TMREdgeMesh::mesh` for an edge without a source
or copy edge: `c` is `(int)(ceil(dist[nvals-1]))` and `sameVertex` is the
result of the pointer comparison `v1 == v2`.  After the clamp `npts ≥ 2` the
value is nonnegative, so C `%` and Lean's `Int.emod` agree on the parity
test. -/
def edgeMeshNpts (c : ℤ) (sameVertex : Bool) : ℤ :=
  let npts0 := c
  let npts1 := if npts0 < 2 then 2 else npts0
  let npts2 := if npts1 % 2 ≠ 1 then npts1 + 1 else npts1
  if sameVertex = true ∧ npts2 < 5 then 5 else npts2

/-! ## TMROctant (src/unnamed/part_002, `TMROctant.cpp`)

`childId` and `getSibling` manipulate single bits of the octant coordinates
with the mask `h = 1 << (TMR_MAX_LEVEL - level)`.  The constant
`TMR_MAX_LEVEL` is declared in `TMRBase.h`, which is not part of the snapshot,
so the embedding is parametric in `maxLevel`.  For a two's-complement integer
`a` and the single-bit mask `2^k`, the C expression `a & h` equals
`2^k` when bit `k` of `a` is set and `0` otherwise; bit `k` of an integer is
`(a / 2^k) % 2` with floor division (Lean's `/` and `%` on `ℤ` with a positive
divisor). -/

/-- The C expression `a & (1 << k)` on a two's-complement integer `a`. -/
def andPow2 (a : ℤ) (k : ℕ) : ℤ :=
  if (a / 2 ^ k) % 2 = 1 then 2 ^ k else 0

/-- The octant data carried by `TMROctant`.  The field `tag` of the C class is
never read or written by `childId`/`getSibling` and is omitted. -/
structure TMROctant where
  block : ℤ
  x : ℤ
  y : ℤ
  z : ℤ
  level : ℕ
  info : ℤ
deriving DecidableEq, Repr

/-- `TMROctant::childId`: with `h = 1 << (maxLevel - level)`,
`id = ((x & h) ? 1 : 0) | ((y & h) ? 2 : 0) | ((z & h) ? 4 : 0)`.
The three contributions occupy disjoint bits, so the C bitwise-or is
addition. -/
def TMROctant.childId (maxLevel : ℕ) (o : TMROctant) : ℤ :=
  let k := maxLevel - o.level
  (if andPow2 o.x k ≠ 0 then 1 else 0) +
  (if andPow2 o.y k ≠ 0 then 2 else 0) +
  (if andPow2 o.z k ≠ 0 then 4 else 0)

/-- `TMROctant::getSibling`: clear bit `h = 1 << (maxLevel - level)` of each
coordinate (`xr = (x & h) ? x - h : x`), then set it again according to the
requested child id (`sib->x = (id & 1) ? xr + h : xr`, and similarly for `y`
with `id & 2` and `z` with `id & 4`). -/
def TMROctant.getSibling (maxLevel : ℕ) (o : TMROctant) (id : ℤ) : TMROctant :=
  let k := maxLevel - o.level
  let h : ℤ := 2 ^ k
  let xr := if andPow2 o.x k ≠ 0 then o.x - h else o.x
  let yr := if andPow2 o.y k ≠ 0 then o.y - h else o.y
  let zr := if andPow2 o.z k ≠ 0 then o.z - h else o.z
  { block := o.block
    level := o.level
    info := 0
    x := if andPow2 id 0 ≠ 0 then xr + h else xr
    y := if andPow2 id 1 ≠ 0 then yr + h else yr
    z := if andPow2 id 2 ≠ 0 then zr + h else zr }

/-! Bit-manipulation lemmas for `andPow2`. -/

theorem andPow2_eq_zero_or_pow (a : ℤ) (k : ℕ) :
    andPow2 a k = 0 ∨ andPow2 a k = 2 ^ k := by
  unfold andPow2; split <;> simp

theorem sub_pow_ediv (a : ℤ) (k : ℕ) : (a - 2 ^ k) / 2 ^ k = a / 2 ^ k - 1 := by
  have hk : (2 : ℤ) ^ k ≠ 0 := by positivity
  have h := Int.add_mul_ediv_right a (-1) hk
  have ha : a + -1 * 2 ^ k = a - 2 ^ k := by ring
  rw [ha] at h
  omega

theorem add_pow_ediv (a : ℤ) (k : ℕ) : (a + 2 ^ k) / 2 ^ k = a / 2 ^ k + 1 := by
  have hk : (2 : ℤ) ^ k ≠ 0 := by positivity
  have h := Int.add_mul_ediv_right a 1 hk
  rw [one_mul] at h
  omega

/-- Clearing the bit: subtracting `2^k` from an integer whose bit `k` is set
produces an integer whose bit `k` is clear. -/
theorem andPow2_sub_self (a : ℤ) (k : ℕ) (h : andPow2 a k ≠ 0) :
    andPow2 (a - 2 ^ k) k = 0 := by
  unfold andPow2 at *
  rw [sub_pow_ediv]
  have hq : (a / 2 ^ k) % 2 = 1 := by
    by_contra hq; simp [hq] at h
  have : (a / 2 ^ k - 1) % 2 = 0 := by omega
  simp [this]

/-- Setting the bit: adding `2^k` to an integer whose bit `k` is clear
produces an integer whose bit `k` is set. -/
theorem andPow2_add_self (a : ℤ) (k : ℕ) (h : andPow2 a k = 0) :
    andPow2 (a + 2 ^ k) k = 2 ^ k := by
  unfold andPow2 at *
  rw [add_pow_ediv]
  have hq : (a / 2 ^ k) % 2 ≠ 1 := by
    by_contra hq
    rw [if_pos hq] at h
    exact absurd h (by positivity)
  have : (a / 2 ^ k + 1) % 2 = 1 := by omega
  simp [this]

/-- The coordinate produced by `getSibling` has bit `k` equal to the selected
child bit. -/
theorem sibling_coord_bit (a : ℤ) (k : ℕ) (c : Prop) [Decidable c] :
    andPow2 (if c then (if andPow2 a k ≠ 0 then a - 2 ^ k else a) + 2 ^ k
             else (if andPow2 a k ≠ 0 then a - 2 ^ k else a)) k
      = if c then 2 ^ k else 0 := by
  have hclear : andPow2 (if andPow2 a k ≠ 0 then a - 2 ^ k else a) k = 0 := by
    split
    · exact andPow2_sub_self a k (by assumption)
    · omega
  by_cases hc : c
  · simp only [if_pos hc]
    exact andPow2_add_self _ k hclear
  · simp only [if_neg hc]
    exact hclear

theorem recompose_bits (id : ℤ) (h0 : 0 ≤ id) (h8 : id < 8) :
    ((if andPow2 id 0 ≠ 0 then (1 : ℤ) else 0) +
     (if andPow2 id 1 ≠ 0 then 2 else 0) +
     (if andPow2 id 2 ≠ 0 then 4 else 0)) = id := by
  interval_cases id <;> decide

/-- C10: for every octant `q` and child index `id` in `0..7`, the sibling `s`
produced by `q.getSibling(id, &s)` satisfies `s.childId() == id`,
`s.level == q.level` and `s.block == q.block`. -/
theorem getSibling_childId (maxLevel : ℕ) (o : TMROctant) (id : ℤ)
    (_hlev : o.level ≤ maxLevel) (h0 : 0 ≤ id) (h8 : id < 8) :
    TMROctant.childId maxLevel (TMROctant.getSibling maxLevel o id) = id ∧
    (TMROctant.getSibling maxLevel o id).level = o.level ∧
    (TMROctant.getSibling maxLevel o id).block = o.block := by
  refine ⟨?_, rfl, rfl⟩
  have hpow : (2 : ℤ) ^ (maxLevel - o.level) ≠ 0 := by positivity
  simp only [TMROctant.childId, TMROctant.getSibling]
  simp only [sibling_coord_bit]
  have e : ∀ (c : Prop) (inst : Decidable c) (m : ℤ),
      (if (if c then (2 : ℤ) ^ (maxLevel - o.level) else 0) ≠ 0 then m else 0)
        = if c then m else 0 := by
    intro c inst m
    by_cases hc : c <;> simp [hc, hpow]
  simp only [e]
  exact recompose_bits id h0 h8

/-- Witness for C10 at a concrete octant and child index. -/
theorem getSibling_childId_witness :
    TMROctant.childId 30
        (TMROctant.getSibling 30 ⟨7, 64, 96, 32, 25, 0⟩ 5) = 5 ∧
      (TMROctant.getSibling 30 ⟨7, 64, 96, 32, 25, 0⟩ 5).level = 25 ∧
      (TMROctant.getSibling 30 ⟨7, 64, 96, 32, 25, 0⟩ 5).block = 7 :=
  getSibling_childId 30 ⟨7, 64, 96, 32, 25, 0⟩ 5 (by decide) (by decide)
    (by decide)

/-- C9: for a non-degenerate edge meshed without a source or copy edge, the
computed number of mesh points is odd and at least `3` (so the edge carries an
even number of segments), and when the end vertices coincide it is at least
`5`. -/
theorem edgeMeshNpts_odd (c : ℤ) (sameVertex : Bool) :
    Odd (edgeMeshNpts c sameVertex) ∧ 3 ≤ edgeMeshNpts c sameVertex ∧
      (sameVertex = true → 5 ≤ edgeMeshNpts c sameVertex) := by
  rw [Int.odd_iff]
  simp only [edgeMeshNpts]
  cases sameVertex
  · rw [if_neg (by simp)]
    exact ⟨by split_ifs <;> omega, by split_ifs <;> omega, fun hh => by cases hh⟩
  · simp only [eq_self_iff_true, true_and]
    refine ⟨?_, ?_, fun _ => ?_⟩ <;> split_ifs <;> omega

/-- Witness for C9 at a concrete integrated-distance ceiling. -/
theorem edgeMeshNpts_odd_witness :
    Odd (edgeMeshNpts 0 true) ∧ 3 ≤ edgeMeshNpts 0 true ∧
      (true = true → 5 ≤ edgeMeshNpts 0 true) :=
  edgeMeshNpts_odd 0 true

/-! ## Finite-difference derivative evaluation
(`TMRFace::evalDeriv` and `TMREdge::evalDeriv` in src/src/TMRTopology.cpp,
`TMRSurface::evalDeriv` in src/src/TMRGeometry.cpp)

The member function `evalPoint` of the concrete geometry is an external
collaborator; it is modelled as an oracle returning a failure code together
with the point it writes through its output parameter.  The C output
parameters `X`, `Xu`, `Xv` (resp. `Xt`) are modelled as `Option` values that
are `none` until the corresponding assignment statement executes. -/

/-- A 3D point, as in `TMRBase.h`. -/
structure TMRPoint where
  x : ℚ
  y : ℚ
  z : ℚ
deriving DecidableEq, Repr

/-- The forward/backward difference quotient `(p - q) / step` taken
componentwise, as written out in the three assignment statements of the
derivative routines. -/
def diffQuot (p q : TMRPoint) (step : ℚ) : TMRPoint :=
  ⟨(p.x - q.x) / step, (p.y - q.y) / step, (p.z - q.z) / step⟩

/-- Result of a surface derivative evaluation: the returned failure code and
the three output parameters (`none` = never assigned). -/
structure FaceDerivResult where
  fail : ℤ
  X : Option TMRPoint
  Xu : Option TMRPoint
  Xv : Option TMRPoint
deriving DecidableEq, Repr

/-- Result of a curve derivative evaluation. -/
structure EdgeDerivResult where
  fail : ℤ
  X : Option TMRPoint
  Xt : Option TMRPoint
deriving DecidableEq, Repr

/-- The C idiom `fail = fail || evalPoint(...)` on `int` failure codes. -/
def orInt (a b : ℤ) : ℤ := if a ≠ 0 ∨ b ≠ 0 then 1 else 0

/-- `TMRFace::evalDeriv(u, v, X, Xu, Xv)` (src/src/TMRTopology.cpp).  `fail`
starts at `0`; when `(u,v)` lies inside the range reported by `getRange` the
point and the finite-difference derivatives are computed (forward difference
if the step stays inside the range, otherwise backward difference, otherwise
`fail = 1`); when `(u,v)` is outside the range the body is skipped entirely
and `fail = 0` is returned with no output assigned. -/
def faceEvalDeriv (umin vmin umax vmax : ℚ) (evalPoint : ℚ → ℚ → ℤ × TMRPoint)
    (step u v : ℚ) : FaceDerivResult :=
  if umin ≤ u ∧ u ≤ umax ∧ vmin ≤ v ∧ v ≤ vmax then
    let r0 := evalPoint u v
    let ru : ℤ × Option TMRPoint :=
      if u + step ≤ umax then
        let p2 := evalPoint (u + step) v
        (orInt r0.1 p2.1, some (diffQuot p2.2 r0.2 step))
      else if umin + step ≤ u then
        let p2 := evalPoint (u - step) v
        (orInt r0.1 p2.1, some (diffQuot r0.2 p2.2 step))
      else (1, none)
    let rv : ℤ × Option TMRPoint :=
      if v + step ≤ vmax then
        let p2 := evalPoint u (v + step)
        (orInt ru.1 p2.1, some (diffQuot p2.2 r0.2 step))
      else if vmin + step ≤ v then
        let p2 := evalPoint u (v - step)
        (orInt ru.1 p2.1, some (diffQuot r0.2 p2.2 step))
      else (1, none)
    { fail := rv.1, X := some r0.2, Xu := ru.2, Xv := rv.2 }
  else
    { fail := 0, X := none, Xu := none, Xv := none }

/-- `TMRSurface::evalDeriv(u, v, X, Xu, Xv)` (src/src/TMRGeometry.cpp); the
body is textually identical to `TMRFace::evalDeriv`. -/
def surfaceEvalDeriv (umin vmin umax vmax : ℚ)
    (evalPoint : ℚ → ℚ → ℤ × TMRPoint) (step u v : ℚ) : FaceDerivResult :=
  if umin ≤ u ∧ u ≤ umax ∧ vmin ≤ v ∧ v ≤ vmax then
    let r0 := evalPoint u v
    let ru : ℤ × Option TMRPoint :=
      if u + step ≤ umax then
        let p2 := evalPoint (u + step) v
        (orInt r0.1 p2.1, some (diffQuot p2.2 r0.2 step))
      else if umin + step ≤ u then
        let p2 := evalPoint (u - step) v
        (orInt r0.1 p2.1, some (diffQuot r0.2 p2.2 step))
      else (1, none)
    let rv : ℤ × Option TMRPoint :=
      if v + step ≤ vmax then
        let p2 := evalPoint u (v + step)
        (orInt ru.1 p2.1, some (diffQuot p2.2 r0.2 step))
      else if vmin + step ≤ v then
        let p2 := evalPoint u (v - step)
        (orInt ru.1 p2.1, some (diffQuot r0.2 p2.2 step))
      else (1, none)
    { fail := rv.1, X := some r0.2, Xu := ru.2, Xv := rv.2 }
  else
    { fail := 0, X := none, Xu := none, Xv := none }

/-- `TMREdge::evalDeriv(t, X, Xt)` (src/src/TMRTopology.cpp).  Unlike the
surface versions, `fail` starts at `1`, so an out-of-range parameter returns
the failure code `1`.  A failure of either `evalPoint` call returns early
with that code. -/
def edgeEvalDeriv (tmin tmax : ℚ) (evalPoint : ℚ → ℤ × TMRPoint)
    (step t : ℚ) : EdgeDerivResult :=
  if tmin ≤ t ∧ t ≤ tmax then
    let r0 := evalPoint t
    if r0.1 ≠ 0 then ⟨r0.1, some r0.2, none⟩
    else if t + step ≤ tmax then
      let r2 := evalPoint (t + step)
      if r2.1 ≠ 0 then ⟨r2.1, some r0.2, none⟩
      else ⟨r2.1, some r0.2, some (diffQuot r2.2 r0.2 step)⟩
    else if tmin + step ≤ t then
      let r2 := evalPoint (t - step)
      if r2.1 ≠ 0 then ⟨r2.1, some r0.2, none⟩
      else ⟨r2.1, some r0.2, some (diffQuot r0.2 r2.2 step)⟩
    else ⟨r0.1, some r0.2, none⟩
  else ⟨1, none, none⟩

/-- C8: for parameters outside the range reported by `getRange`,
`TMRFace::evalDeriv` and `TMRSurface::evalDeriv` return the success code `0`
while assigning none of their outputs `X`, `Xu`, `Xv`, whereas
`TMREdge::evalDeriv` returns the failure code `1` for an out-of-range
parameter. -/
theorem evalDeriv_out_of_range (umin vmin umax vmax tmin tmax : ℚ)
    (epF epS : ℚ → ℚ → ℤ × TMRPoint) (epE : ℚ → ℤ × TMRPoint)
    (step u v t : ℚ)
    (hface : ¬(umin ≤ u ∧ u ≤ umax ∧ vmin ≤ v ∧ v ≤ vmax))
    (hedge : ¬(tmin ≤ t ∧ t ≤ tmax)) :
    faceEvalDeriv umin vmin umax vmax epF step u v
        = { fail := 0, X := none, Xu := none, Xv := none } ∧
      surfaceEvalDeriv umin vmin umax vmax epS step u v
        = { fail := 0, X := none, Xu := none, Xv := none } ∧
      edgeEvalDeriv tmin tmax epE step t = ⟨1, none, none⟩ := by
  refine ⟨?_, ?_, ?_⟩
  · rw [faceEvalDeriv, if_neg hface]
  · rw [surfaceEvalDeriv, if_neg hface]
  · rw [edgeEvalDeriv, if_neg hedge]

/-- Witness for C8 with the range `[0,1] × [0,1]` and the out-of-range
parameters `u = 2`, `t = 2`. -/
theorem evalDeriv_out_of_range_witness :
    faceEvalDeriv 0 0 1 1 (fun _ _ => (0, ⟨0, 0, 0⟩)) (1/1000000) 2 0
        = { fail := 0, X := none, Xu := none, Xv := none } ∧
      surfaceEvalDeriv 0 0 1 1 (fun _ _ => (0, ⟨0, 0, 0⟩)) (1/1000000) 2 0
        = { fail := 0, X := none, Xu := none, Xv := none } ∧
      edgeEvalDeriv 0 1 (fun _ => (0, ⟨0, 0, 0⟩)) (1/1000000) 2
        = ⟨1, none, none⟩ :=
  evalDeriv_out_of_range 0 0 1 1 0 1 (fun _ _ => (0, ⟨0, 0, 0⟩))
    (fun _ _ => (0, ⟨0, 0, 0⟩)) (fun _ => (0, ⟨0, 0, 0⟩)) (1/1000000) 2 0 2
    (by norm_num) (by norm_num)

/-! ## The triangulation mesh data model

The class `TMRTriangularize` is declared in src/unnamed/part_001
(`TMRTriangularize.h`), but its implementation file is not part of the
snapshot.  The data model below follows the header's declarations, and the
operations are modelled from the specification (§3, §4.3, §4.4). -/

/-- Triangle status values, from `TMRTriangularize` (src/unnamed/part_001). -/
def NO_STATUS : ℕ := 0

def WAITING : ℕ := 1

def ACTIVE : ℕ := 2

def ACCEPTED : ℕ := 3

def DELETE_ME : ℕ := 4

/-- `TMRTriangularize::FIXED_POINT_OFFSET` (src/unnamed/part_001): the
Bowyer-Watson algorithm is started with 4 super-points. -/
def FIXED_POINT_OFFSET : ℕ := 4

/-- The `TMRTriangle` class (src/unnamed/part_001): three point identifiers in
counter-clockwise parameter-space order and a status.  The `tag`, `quality`
and `R` fields play no part in the claims and are omitted. -/
structure TMRTriangle where
  u : ℕ
  v : ℕ
  w : ℕ
  status : ℕ
deriving DecidableEq, Repr

/-- The edges of a triangle, directed counter-clockwise:
`(u,v)`, `(v,w)`, `(w,u)`. -/
def TMRTriangle.edges (t : TMRTriangle) : List (ℕ × ℕ) :=
  [(t.u, t.v), (t.v, t.w), (t.w, t.u)]

/-- The edge → triangle hash table, modelled as an association list from
directed edges to triangles. -/
def EdgeMap : Type := List ((ℕ × ℕ) × TMRTriangle)

/-- Look up the triangle stored for the directed edge `(a,b)`
(`TMRTriangularize::completeMe`, modelled from the spec: `complete(a,b) → t?`
returns the unique triangle with directed edge `(a,b)`, "none" for boundary
edges). -/
def lookupEdge : EdgeMap → ℕ → ℕ → Option TMRTriangle
  | [], _, _ => none
  | e :: rest, a, b => if e.1 = (a, b) then some e.2 else lookupEdge rest a b

/-- The mutable state of the triangulator that the topological operations
touch: the live-triangle list, the edge hash table, and the PSLG constraint
set (unordered pairs stored with the smaller identifier first). -/
structure MeshState where
  tris : List TMRTriangle
  edgeMap : EdgeMap
  pslg : List (ℕ × ℕ)

/-- `TMRTriangularize::edgeInPSLG` — Modelled from the spec: the PSLG is a
set of unordered vertex pairs, so membership is tested on the sorted pair. -/
def edgeInPSLG (s : MeshState) (a b : ℕ) : Bool :=
  decide ((min a b, max a b) ∈ s.pslg)

/-- `TMRTriangularize::addTriangle` — Modelled from the spec (§4.3): prepend
the triangle to the list and insert its three directed edges, but fail
(returning no state, so nothing is installed) if any of the three directed
edges is already present in the edge map. -/
def addTriangle (s : MeshState) (t : TMRTriangle) : Option MeshState :=
  if (lookupEdge s.edgeMap t.u t.v).isSome ∨
      (lookupEdge s.edgeMap t.v t.w).isSome ∨
      (lookupEdge s.edgeMap t.w t.u).isSome then
    none
  else
    some { s with
            tris := t :: s.tris
            edgeMap := ((t.u, t.v), t) :: ((t.v, t.w), t) ::
              ((t.w, t.u), t) :: s.edgeMap }

/-- C5: `addTriangle(t)` prepends `t` to the triangle list and inserts the
three directed edges `(u,v)`, `(v,w)`, `(w,u)` into the edge map; it fails
(returning a failure indicator and installing nothing) exactly when one of
those directed edges is already present. -/
theorem addTriangle_spec (s : MeshState) (t : TMRTriangle) :
    (addTriangle s t = none ↔
      ((lookupEdge s.edgeMap t.u t.v).isSome ∨
        (lookupEdge s.edgeMap t.v t.w).isSome ∨
        (lookupEdge s.edgeMap t.w t.u).isSome)) ∧
    (∀ s', addTriangle s t = some s' →
      s'.tris = t :: s.tris ∧
      s'.edgeMap = ((t.u, t.v), t) :: ((t.v, t.w), t) ::
        ((t.w, t.u), t) :: s.edgeMap ∧
      lookupEdge s'.edgeMap t.u t.v = some t ∧
      lookupEdge s'.edgeMap t.v t.w = some t ∧
      lookupEdge s'.edgeMap t.w t.u = some t) := by
  constructor
  · unfold addTriangle
    split
    · simp only [true_iff]; assumption
    · simp only [reduceCtorEq, false_iff]; assumption
  · intro s' hs'
    unfold addTriangle at hs'
    split at hs'
    · exact absurd hs' (by simp)
    · cases hs'
      refine ⟨rfl, rfl, ?_, ?_, ?_⟩
      · simp [lookupEdge]
      · by_cases h12 : ((t.u, t.v) : ℕ × ℕ) = (t.v, t.w) <;>
          simp [lookupEdge, h12]
      · by_cases h13 : ((t.u, t.v) : ℕ × ℕ) = (t.w, t.u) <;>
          by_cases h23 : ((t.v, t.w) : ℕ × ℕ) = (t.w, t.u) <;>
          simp [lookupEdge, h13, h23]

/-- The state produced by the witness run of `addTriangle` below. -/
def addTriangleWitnessState : MeshState :=
  { tris := [⟨4, 5, 6, 0⟩]
    edgeMap := [((4, 5), ⟨4, 5, 6, 0⟩), ((5, 6), ⟨4, 5, 6, 0⟩),
      ((6, 4), ⟨4, 5, 6, 0⟩)]
    pslg := [] }

/-- Witness for C5: on an empty mesh, adding a triangle succeeds with the
stated list and edge-map contents. -/
theorem addTriangle_spec_witness :
    addTriangle ⟨[], [], []⟩ ⟨4, 5, 6, 0⟩ = some addTriangleWitnessState ∧
      addTriangleWitnessState.tris = ⟨4, 5, 6, 0⟩ :: [] ∧
      lookupEdge addTriangleWitnessState.edgeMap 4 5 = some ⟨4, 5, 6, 0⟩ := by
  have h := (addTriangle_spec ⟨[], [], []⟩ ⟨4, 5, 6, 0⟩).2
      addTriangleWitnessState (by rfl)
  exact ⟨by rfl, h.1, h.2.2.1⟩

/-! ## Super-point creation and removal (C4) -/

/-- `TMRTriangularize::addPoint` — Modelled from the spec (§4.1): the point
store is append-only and `addPoint` returns the new point's identifier, its
index in the store.  Only the identifier arithmetic matters here: given the
current point count, the call returns that count as the id and increments the
count. -/
def addPoint (npts : ℕ) : ℕ × ℕ := (npts, npts + 1)

/-- The identifiers handed out for the four corner super-points created by the
bounding-box initializer, which adds them to a fresh (empty) point store. -/
def superPointIds : List ℕ :=
  let r0 := addPoint 0
  let r1 := addPoint r0.2
  let r2 := addPoint r1.2
  let r3 := addPoint r2.2
  [r0.1, r1.1, r2.1, r3.1]

/-- Marking phase of super-point removal — Modelled from the spec (§3
Lifecycle, §4.4.1): every triangle that references an identifier below
`FIXED_POINT_OFFSET` is marked `DELETE_ME`. -/
def markSuperTriangles (tris : List TMRTriangle) : List TMRTriangle :=
  tris.map fun t =>
    if t.u < FIXED_POINT_OFFSET ∨ t.v < FIXED_POINT_OFFSET ∨
        t.w < FIXED_POINT_OFFSET then
      { t with status := DELETE_ME }
    else t

/-- `TMRTriangularize::deleteTrianglesFromList` — Modelled from the spec (§3
Lifecycle): destruction is two-phase; the sweep drops every triangle whose
status is `DELETE_ME`. -/
def deleteTrianglesFromList (tris : List TMRTriangle) : List TMRTriangle :=
  tris.filter fun t => decide (t.status ≠ DELETE_ME)

/-- The end-of-initialization cleanup: mark, then sweep. -/
def removeSuperTriangles (tris : List TMRTriangle) : List TMRTriangle :=
  deleteTrianglesFromList (markSuperTriangles tris)

/-- C4: the four super-points created by the bounding-box initializer receive
the identifiers `0, 1, 2, 3` (so `FIXED_POINT_OFFSET = 4`); marking every
triangle referencing an identifier below `FIXED_POINT_OFFSET` as `DELETE_ME`
and sweeping leaves no live triangle referencing a super-point. -/
theorem superPoint_removal (tris : List TMRTriangle) :
    FIXED_POINT_OFFSET = 4 ∧
    superPointIds = [0, 1, 2, 3] ∧
    (∀ t ∈ markSuperTriangles tris,
      (t.u < FIXED_POINT_OFFSET ∨ t.v < FIXED_POINT_OFFSET ∨
        t.w < FIXED_POINT_OFFSET) → t.status = DELETE_ME) ∧
    (∀ t ∈ removeSuperTriangles tris,
      FIXED_POINT_OFFSET ≤ t.u ∧ FIXED_POINT_OFFSET ≤ t.v ∧
        FIXED_POINT_OFFSET ≤ t.w ∧ t.status ≠ DELETE_ME) := by
  refine ⟨rfl, rfl, ?_, ?_⟩
  · intro t ht hsup
    rcases List.mem_map.mp ht with ⟨t0, _, rfl⟩
    by_cases hcond : t0.u < FIXED_POINT_OFFSET ∨ t0.v < FIXED_POINT_OFFSET ∨
        t0.w < FIXED_POINT_OFFSET
    · rw [if_pos hcond]
    · rw [if_neg hcond] at hsup
      exact absurd hsup hcond
  · intro t ht
    rcases List.mem_filter.mp ht with ⟨hmem, hstat⟩
    rcases List.mem_map.mp hmem with ⟨t0, _, rfl⟩
    have hstat' : (if t0.u < FIXED_POINT_OFFSET ∨ t0.v < FIXED_POINT_OFFSET ∨
        t0.w < FIXED_POINT_OFFSET then { t0 with status := DELETE_ME }
        else t0).status ≠ DELETE_ME := by simpa using hstat
    by_cases hcond : t0.u < FIXED_POINT_OFFSET ∨ t0.v < FIXED_POINT_OFFSET ∨
        t0.w < FIXED_POINT_OFFSET
    · rw [if_pos hcond] at hstat'
      exact absurd rfl hstat'
    · rw [if_neg hcond] at hstat' ⊢
      push_neg at hcond
      exact ⟨hcond.1, hcond.2.1, hcond.2.2, hstat'⟩

/-- Witness for C4 on a concrete triangle list: a triangle touching
super-point `2` is swept away, one not touching any super-point survives with
all identifiers at least `4`. -/
theorem superPoint_removal_witness :
    FIXED_POINT_OFFSET = 4 ∧
      superPointIds = [0, 1, 2, 3] ∧
      (∀ t ∈ markSuperTriangles [⟨2, 5, 6, 0⟩, ⟨4, 5, 6, 0⟩],
        (t.u < FIXED_POINT_OFFSET ∨ t.v < FIXED_POINT_OFFSET ∨
          t.w < FIXED_POINT_OFFSET) → t.status = DELETE_ME) ∧
      (∀ t ∈ removeSuperTriangles [⟨2, 5, 6, 0⟩, ⟨4, 5, 6, 0⟩],
        FIXED_POINT_OFFSET ≤ t.u ∧ FIXED_POINT_OFFSET ≤ t.v ∧
          FIXED_POINT_OFFSET ≤ t.w ∧ t.status ≠ DELETE_ME) :=
  superPoint_removal [⟨2, 5, 6, 0⟩, ⟨4, 5, 6, 0⟩]

/-! ## getMesh (C3) -/

/-- The cleaned mesh returned by `getMesh`: a point count, the point data, and
the triangle connectivity over the renumbered identifiers. -/
structure CleanMesh (α : Type) where
  numPoints : ℕ
  points : List α
  conn : List (ℕ × ℕ × ℕ)
deriving DecidableEq, Repr

/-- `TMRTriangularize::getMesh` — Modelled from the spec (§4.5): return only
the accepted, cleaned triangulation.  Triangles with `DELETE_ME` status are
excluded, the four super-points (the first `FIXED_POINT_OFFSET` entries of the
append-only store) are dropped, and the remaining points are renumbered
densely by shifting every identifier down by `FIXED_POINT_OFFSET`.  The point
data is polymorphic: the code returns both the parametric and the 3D
coordinate arrays, which are handled identically. -/
def getMesh (α : Type) (params : List α) (tris : List TMRTriangle) :
    CleanMesh α :=
  let keep := tris.filter fun t => decide (t.status ≠ DELETE_ME)
  { numPoints := params.length - FIXED_POINT_OFFSET
    points := params.drop FIXED_POINT_OFFSET
    conn := keep.map fun t =>
      (t.u - FIXED_POINT_OFFSET, t.v - FIXED_POINT_OFFSET,
        t.w - FIXED_POINT_OFFSET) }

/-- C3: `getMesh` returns only the cleaned triangulation.  Provided every
non-`DELETE_ME` triangle references only non-super points inside the store
(which the initialization cleanup of C4 guarantees), the result excludes the
super-points, its point count is the dense renumbering range, every
connectivity entry comes from a triangle that is not `DELETE_ME` and
references no super-point, and every renumbered identifier lies in
`0..numPoints-1`. -/
theorem getMesh_spec (α : Type) (params : List α) (tris : List TMRTriangle)
    (hclean : ∀ t ∈ tris, t.status ≠ DELETE_ME →
      (FIXED_POINT_OFFSET ≤ t.u ∧ t.u < params.length) ∧
      (FIXED_POINT_OFFSET ≤ t.v ∧ t.v < params.length) ∧
      (FIXED_POINT_OFFSET ≤ t.w ∧ t.w < params.length)) :
    (getMesh α params tris).points = params.drop FIXED_POINT_OFFSET ∧
    (getMesh α params tris).numPoints = params.length - FIXED_POINT_OFFSET ∧
    (getMesh α params tris).points.length =
      (getMesh α params tris).numPoints ∧
    (∀ c ∈ (getMesh α params tris).conn,
      ∃ t ∈ tris, t.status ≠ DELETE_ME ∧
        FIXED_POINT_OFFSET ≤ t.u ∧ FIXED_POINT_OFFSET ≤ t.v ∧
        FIXED_POINT_OFFSET ≤ t.w ∧
        c = (t.u - FIXED_POINT_OFFSET, t.v - FIXED_POINT_OFFSET,
          t.w - FIXED_POINT_OFFSET)) ∧
    (∀ c ∈ (getMesh α params tris).conn,
      c.1 < (getMesh α params tris).numPoints ∧
      c.2.1 < (getMesh α params tris).numPoints ∧
      c.2.2 < (getMesh α params tris).numPoints) := by
  refine ⟨rfl, rfl, by simp [getMesh], ?_, ?_⟩
  · intro c hc
    simp only [getMesh, List.mem_map, List.mem_filter] at hc
    rcases hc with ⟨t, ⟨hmem, hstat⟩, rfl⟩
    have hstat' : t.status ≠ DELETE_ME := by simpa using hstat
    rcases hclean t hmem hstat' with ⟨⟨hu, _⟩, ⟨hv, _⟩, ⟨hw, _⟩⟩
    exact ⟨t, hmem, hstat', hu, hv, hw, rfl⟩
  · intro c hc
    simp only [getMesh, List.mem_map, List.mem_filter] at hc
    rcases hc with ⟨t, ⟨hmem, hstat⟩, rfl⟩
    have hstat' : t.status ≠ DELETE_ME := by simpa using hstat
    rcases hclean t hmem hstat' with ⟨⟨hu, hu'⟩, ⟨hv, hv'⟩, ⟨hw, hw'⟩⟩
    refine ⟨?_, ?_, ?_⟩ <;> simp only [getMesh] <;> omega

/-- Witness for C3 on a concrete cleaned mesh: two points beyond the
super-points, one live triangle, one `DELETE_ME` triangle. -/
theorem getMesh_spec_witness :
    (getMesh ℕ [100, 101, 102, 103, 104, 105]
        [⟨4, 5, 4, 0⟩, ⟨4, 5, 5, 4⟩]).points = [104, 105] ∧
      (getMesh ℕ [100, 101, 102, 103, 104, 105]
        [⟨4, 5, 4, 0⟩, ⟨4, 5, 5, 4⟩]).numPoints = 2 ∧
      (getMesh ℕ [100, 101, 102, 103, 104, 105]
          [⟨4, 5, 4, 0⟩, ⟨4, 5, 5, 4⟩]).points.length =
        (getMesh ℕ [100, 101, 102, 103, 104, 105]
          [⟨4, 5, 4, 0⟩, ⟨4, 5, 5, 4⟩]).numPoints ∧
      (∀ c ∈ (getMesh ℕ [100, 101, 102, 103, 104, 105]
          [⟨4, 5, 4, 0⟩, ⟨4, 5, 5, 4⟩]).conn,
        c.1 < 2 ∧ c.2.1 < 2 ∧ c.2.2 < 2) := by
  have h := getMesh_spec ℕ [100, 101, 102, 103, 104, 105]
      [⟨4, 5, 4, 0⟩, ⟨4, 5, 5, 4⟩] (by decide)
  exact ⟨by rfl, by rfl, h.2.2.1, fun c hc => h.2.2.2.2 c hc⟩

/-! ## Cavity digging (C1) -/

/-- The vertex of triangle `t` opposite the directed edge `(b,a)` that `t`
contains: the triangle's vertices are cyclic, so if `(b,a)` is `(u,v)` the
opposite vertex is `w`, if it is `(v,w)` the opposite vertex is `u`, and
otherwise (`(w,u)`) it is `v`. -/
def thirdVertex (t : TMRTriangle) (b a : ℕ) : ℕ :=
  if t.u = b ∧ t.v = a then t.w
  else if t.v = b ∧ t.w = a then t.u
  else t.v

/-- Unchecked triangle creation used by cavity digging — Modelled from the
spec (§4.4.2, "create triangle `(a,b,x)`"): prepend the triangle and insert
its three directed edges. -/
def createTriangle (s : MeshState) (a b x : ℕ) : MeshState :=
  let t : TMRTriangle := ⟨a, b, x, NO_STATUS⟩
  { s with
    tris := t :: s.tris
    edgeMap := ((a, b), t) :: ((b, x), t) :: ((x, a), t) :: s.edgeMap }

/-- `TMRTriangularize::deleteTriangle` — Modelled from the spec (§4.3):
unlink the triangle from the list and remove its three directed edges from
the edge map. -/
def deleteTriangle (s : MeshState) (t : TMRTriangle) : MeshState :=
  { s with
    tris := s.tris.erase t
    edgeMap := s.edgeMap.filter fun e =>
      decide (e.1 ≠ (t.u, t.v) ∧ e.1 ≠ (t.v, t.w) ∧ e.1 ≠ (t.w, t.u)) }

/-- `TMRTriangularize::digCavity(u, v, w)` — Modelled from the spec
(§4.4.2); the implementation file of `TMRTriangularize` (declared at
src/unnamed/part_001 line 207) is not in the snapshot.  `digCavity a b x`:
let `t' = complete(b,a)` be the triangle across edge `(a,b)` from `x`; if
there is none (boundary) or `(a,b)` is a PSLG edge, create `(a,b,x)`;
otherwise, with `c` the third vertex of `t'`, if `inCircle(a,b,c,x)` is
positive, delete `t'` and recurse on `(a,c,x)` and `(c,b,x)`, else create
`(a,b,x)`.  The geometric predicate `inCircle` is an external oracle `inC`.
The recursion is modelled with explicit fuel (`none` = fuel exhausted), and
the result is instrumented with the list of directed edges `(a,b)` across
which a triangle was deleted — the flipped edges the cavity expanded over. -/
def digCavity (inC : ℕ → ℕ → ℕ → ℕ → ℚ) :
    ℕ → ℕ → ℕ → ℕ → MeshState → Option (MeshState × List (ℕ × ℕ))
  | 0, _, _, _, _ => none
  | fuel + 1, a, b, x, s =>
    match lookupEdge s.edgeMap b a with
    | none => some (createTriangle s a b x, [])
    | some t =>
      if edgeInPSLG s a b then some (createTriangle s a b x, [])
      else
        let c := thirdVertex t b a
        if 0 < inC a b c x then
          match digCavity inC fuel a c x (deleteTriangle s t) with
          | none => none
          | some (s1, l1) =>
            match digCavity inC fuel c b x s1 with
            | none => none
            | some (s2, l2) => some (s2, (a, b) :: (l1 ++ l2))
        else some (createTriangle s a b x, [])

theorem createTriangle_pslg (s : MeshState) (a b x : ℕ) :
    (createTriangle s a b x).pslg = s.pslg := rfl

theorem deleteTriangle_pslg (s : MeshState) (t : TMRTriangle) :
    (deleteTriangle s t).pslg = s.pslg := rfl

theorem edgeInPSLG_congr {s s' : MeshState} (h : s'.pslg = s.pslg)
    (a b : ℕ) : edgeInPSLG s' a b = edgeInPSLG s a b := by
  unfold edgeInPSLG
  rw [h]

/-- Cavity digging never changes the PSLG constraint set. -/
theorem digCavity_pslg (inC : ℕ → ℕ → ℕ → ℕ → ℚ) :
    ∀ (fuel a b x : ℕ) (s s' : MeshState) (l : List (ℕ × ℕ)),
      digCavity inC fuel a b x s = some (s', l) → s'.pslg = s.pslg := by
  intro fuel
  induction fuel with
  | zero => intro a b x s s' l h; cases h
  | succ fuel ih =>
    intro a b x s s' l h
    rw [digCavity] at h
    cases hlk : lookupEdge s.edgeMap b a with
    | none =>
      rw [hlk] at h
      cases h
      rfl
    | some t =>
      rw [hlk] at h
      simp only [] at h
      by_cases hp : edgeInPSLG s a b
      · rw [if_pos hp] at h
        cases h
        rfl
      · rw [if_neg hp] at h
        by_cases hc : 0 < inC a b (thirdVertex t b a) x
        · rw [if_pos hc] at h
          cases h1 : digCavity inC fuel a (thirdVertex t b a) x
              (deleteTriangle s t) with
          | none => rw [h1] at h; cases h
          | some p1 =>
            obtain ⟨s1, l1⟩ := p1
            rw [h1] at h
            simp only [] at h
            cases h2 : digCavity inC fuel (thirdVertex t b a) b x s1 with
            | none => rw [h2] at h; cases h
            | some p2 =>
              obtain ⟨s2, l2⟩ := p2
              rw [h2] at h
              simp only [Option.some.injEq, Prod.mk.injEq] at h
              have e1 := ih a (thirdVertex t b a) x (deleteTriangle s t)
                s1 l1 h1
              have e2 := ih (thirdVertex t b a) b x s1 s2 l2 h2
              rw [← h.1, e2, e1, deleteTriangle_pslg]
        · rw [if_neg hc] at h
          cases h
          rfl

/-- Every edge the cavity expands across (every edge flipped away by a
deletion) fails the PSLG membership test: the cavity never digs through a
constrained edge. -/
theorem digCavity_crossed (inC : ℕ → ℕ → ℕ → ℕ → ℚ) :
    ∀ (fuel a b x : ℕ) (s s' : MeshState) (l : List (ℕ × ℕ)),
      digCavity inC fuel a b x s = some (s', l) →
      ∀ e ∈ l, edgeInPSLG s e.1 e.2 = false := by
  intro fuel
  induction fuel with
  | zero => intro a b x s s' l h; cases h
  | succ fuel ih =>
    intro a b x s s' l h
    rw [digCavity] at h
    cases hlk : lookupEdge s.edgeMap b a with
    | none =>
      rw [hlk] at h
      cases h
      intro e he
      cases he
    | some t =>
      rw [hlk] at h
      simp only [] at h
      by_cases hp : edgeInPSLG s a b
      · rw [if_pos hp] at h
        cases h
        intro e he
        cases he
      · rw [if_neg hp] at h
        by_cases hc : 0 < inC a b (thirdVertex t b a) x
        · rw [if_pos hc] at h
          cases h1 : digCavity inC fuel a (thirdVertex t b a) x
              (deleteTriangle s t) with
          | none => rw [h1] at h; cases h
          | some p1 =>
            obtain ⟨s1, l1⟩ := p1
            rw [h1] at h
            simp only [] at h
            cases h2 : digCavity inC fuel (thirdVertex t b a) b x s1 with
            | none => rw [h2] at h; cases h
            | some p2 =>
              obtain ⟨s2, l2⟩ := p2
              rw [h2] at h
              simp only [Option.some.injEq, Prod.mk.injEq] at h
              intro e he
              rw [← h.2] at he
              rcases List.mem_cons.mp he with he1 | he2
              · subst he1
                exact Bool.not_eq_true _ ▸ (by simpa using hp)
              · rcases List.mem_append.mp he2 with hl1 | hl2
                · have := ih a (thirdVertex t b a) x (deleteTriangle s t)
                    s1 l1 h1 e hl1
                  rwa [edgeInPSLG_congr (deleteTriangle_pslg s t)] at this
                · have := ih (thirdVertex t b a) b x s1 s2 l2 h2 e hl2
                  have hs1 : s1.pslg = s.pslg := by
                    rw [digCavity_pslg inC fuel a (thirdVertex t b a) x
                      (deleteTriangle s t) s1 l1 h1, deleteTriangle_pslg]
                  rwa [edgeInPSLG_congr hs1] at this
        · rw [if_neg hc] at h
          cases h
          intro e he
          cases he

/-- C1: `digCavity(a,b,x)` creates triangle `(a,b,x)` and deletes nothing
when the edge `(a,b)` is on the boundary (no triangle across it) or is a
PSLG constraint; otherwise, with `c` the third vertex of the triangle across
`(a,b)`, a positive `inCircle(a,b,c,x)` deletes that triangle and recurses on
`(a,c,x)` and `(c,b,x)`, and a non-positive one creates `(a,b,x)`.  The
final conjunct is the claim's "no PSLG edge is ever removed by cavity
digging": every edge the recursion deletes a triangle across fails the PSLG
test (and the constraint set itself is untouched). -/
theorem digCavity_spec (inC : ℕ → ℕ → ℕ → ℕ → ℚ) (fuel a b x : ℕ)
    (s : MeshState) :
    ((lookupEdge s.edgeMap b a = none ∨ edgeInPSLG s a b = true) →
      digCavity inC (fuel + 1) a b x s = some (createTriangle s a b x, [])) ∧
    (∀ t, lookupEdge s.edgeMap b a = some t → edgeInPSLG s a b = false →
      0 < inC a b (thirdVertex t b a) x →
      digCavity inC (fuel + 1) a b x s =
        match digCavity inC fuel a (thirdVertex t b a) x
            (deleteTriangle s t) with
        | none => none
        | some (s1, l1) =>
          match digCavity inC fuel (thirdVertex t b a) b x s1 with
          | none => none
          | some (s2, l2) => some (s2, (a, b) :: (l1 ++ l2))) ∧
    (∀ t, lookupEdge s.edgeMap b a = some t → edgeInPSLG s a b = false →
      ¬0 < inC a b (thirdVertex t b a) x →
      digCavity inC (fuel + 1) a b x s = some (createTriangle s a b x, [])) ∧
    (∀ s' l, digCavity inC (fuel + 1) a b x s = some (s', l) →
      s'.pslg = s.pslg ∧ ∀ e ∈ l, edgeInPSLG s e.1 e.2 = false) := by
  refine ⟨?_, ?_, ?_, ?_⟩
  · rintro (hlk | hp)
    · rw [digCavity, hlk]
    · rw [digCavity]
      cases hlk : lookupEdge s.edgeMap b a with
      | none => rfl
      | some t => simp only []; rw [if_pos hp]
  · intro t hlk hp hc
    rw [digCavity, hlk]
    simp only []
    rw [if_neg (by simp [hp]), if_pos hc]
  · intro t hlk hp hc
    rw [digCavity, hlk]
    simp only []
    rw [if_neg (by simp [hp]), if_neg hc]
  · intro s' l h
    exact ⟨digCavity_pslg inC (fuel + 1) a b x s s' l h,
      digCavity_crossed inC (fuel + 1) a b x s s' l h⟩

/-- The concrete mesh used to witness C1: one triangle `(1,0,2)` whose edge
`(1,0)` lies across the dug edge `(0,1)`, with `(0,1)` a PSLG constraint. -/
def digCavityWitnessState : MeshState :=
  { tris := [⟨1, 0, 2, 0⟩]
    edgeMap := [((1, 0), ⟨1, 0, 2, 0⟩), ((0, 2), ⟨1, 0, 2, 0⟩),
      ((2, 1), ⟨1, 0, 2, 0⟩)]
    pslg := [(0, 1)] }

/-- Witness for C1: digging the cavity across the constrained edge `(0,1)`
creates triangle `(0,1,4)`, deletes nothing, and reports no crossed edge. -/
theorem digCavity_spec_witness :
    (lookupEdge digCavityWitnessState.edgeMap 1 0 = none ∨
      edgeInPSLG digCavityWitnessState 0 1 = true) ∧
    digCavity (fun _ _ _ _ => (0 : ℚ)) 1 0 1 4 digCavityWitnessState =
      some (createTriangle digCavityWitnessState 0 1 4, []) :=
  ⟨Or.inr (by decide),
    (digCavity_spec (fun _ _ _ _ => (0 : ℚ)) 0 0 1 4
      digCavityWitnessState).1 (Or.inr (by decide))⟩

/-! ## The orientation invariant (C2)

No implementation of the triangulation kernel is in the snapshot, so the
invariant is settled over the modelled mutation trace: the triangle list is
changed only by triangle creation, two-phase deletion (modelled as erasure
after the `DELETE_ME` sweep) and status updates, and the specification
(§4.4.2, §4.4.4) has every creation site emit a counter-clockwise triangle
("valid CCW triangle", global invariant 1). -/

/-- Twice the signed area of triangle `t` in the `(u,v)` parameter plane,
with the append-only point store viewed as a map from identifiers to
parameter points.  Positive exactly when `(u,v,w)` is counter-clockwise. -/
def signedArea2 (pts : ℕ → ℚ × ℚ) (t : TMRTriangle) : ℚ :=
  ((pts t.v).1 - (pts t.u).1) * ((pts t.w).2 - (pts t.u).2) -
    ((pts t.v).2 - (pts t.u).2) * ((pts t.w).1 - (pts t.u).1)

/-- The mutations the kernel applies to the triangle list — Modelled from
the spec (§3 Lifecycle): triangles are created by insertion, destroyed by
cavity digging (mark `DELETE_ME`, then sweep), and have their status updated
by the frontal classification. -/
inductive TriOp where
  | addTri (t : TMRTriangle)
  | delTri (t : TMRTriangle)
  | setStatus (p : TMRTriangle → Bool) (st : ℕ)

/-- Apply one mutation to the live-triangle list. -/
def applyTriOp (l : List TMRTriangle) : TriOp → List TMRTriangle
  | .addTri t => t :: l
  | .delTri t => l.erase t
  | .setStatus p st => l.map fun t => if p t then { t with status := st } else t

/-- Global invariant 1 of the spec: every live triangle is counter-clockwise
in parameter space. -/
def ccwInvariant (pts : ℕ → ℚ × ℚ) (l : List TMRTriangle) : Prop :=
  ∀ t ∈ l, 0 < signedArea2 pts t

/-- A mutation respects orientation when any triangle it creates is
counter-clockwise; deletions and status updates always do. -/
def opCreatesCCW (pts : ℕ → ℚ × ℚ) : TriOp → Prop
  | .addTri t => 0 < signedArea2 pts t
  | .delTri _ => True
  | .setStatus _ _ => True

theorem signedArea2_setStatus (pts : ℕ → ℚ × ℚ) (t : TMRTriangle) (st : ℕ) :
    signedArea2 pts { t with status := st } = signedArea2 pts t := rfl

/-- One mutation step preserves the orientation invariant. -/
theorem ccwInvariant_step (pts : ℕ → ℚ × ℚ) (l : List TMRTriangle)
    (op : TriOp) (hinv : ccwInvariant pts l) (hop : opCreatesCCW pts op) :
    ccwInvariant pts (applyTriOp l op) := by
  cases op with
  | addTri t =>
    intro t' ht'
    rcases List.mem_cons.mp ht' with rfl | hmem
    · exact hop
    · exact hinv t' hmem
  | delTri t =>
    intro t' ht'
    exact hinv t' (List.mem_of_mem_erase ht')
  | setStatus p st =>
    intro t' ht'
    rcases List.mem_map.mp ht' with ⟨t0, hmem, rfl⟩
    by_cases hp : p t0
    · rw [if_pos hp, signedArea2_setStatus]
      exact hinv t0 hmem
    · rw [if_neg hp]
      exact hinv t0 hmem

/-- C2: at every observable state — after construction and after each public
call, i.e. after any sequence of the kernel's list mutations in which every
created triangle is counter-clockwise — every live triangle has strictly
positive signed area in the `(u,v)` parameter plane. -/
theorem ccwInvariant_trace (pts : ℕ → ℚ × ℚ) (ops : List TriOp)
    (l0 : List TMRTriangle) (hinv : ccwInvariant pts l0)
    (hops : ∀ op ∈ ops, opCreatesCCW pts op) :
    ccwInvariant pts (ops.foldl applyTriOp l0) := by
  induction ops generalizing l0 with
  | nil => exact hinv
  | cons op rest ih =>
    rw [List.foldl_cons]
    exact ih (applyTriOp l0 op)
      (ccwInvariant_step pts l0 op hinv (hops op (List.mem_cons_self op rest)))
      (fun o ho => hops o (List.mem_cons_of_mem op ho))

/-- The point store for the C2 witness: ids `0,1,2` at the corners of the
unit right triangle, everything else at the origin. -/
def ccwWitnessPts : ℕ → ℚ × ℚ :=
  fun i => if i = 1 then (1, 0) else if i = 2 then (0, 1) else (0, 0)

/-- Witness for C2: starting from the empty list, adding the CCW triangle
`(0,1,2)`, marking it `ACCEPTED` and adding nothing else keeps every live
triangle at positive signed area. -/
theorem ccwInvariant_trace_witness :
    ccwInvariant ccwWitnessPts
      (([TriOp.addTri ⟨0, 1, 2, 0⟩,
         TriOp.setStatus (fun _ => true) ACCEPTED]).foldl applyTriOp []) :=
  ccwInvariant_trace ccwWitnessPts
    [TriOp.addTri ⟨0, 1, 2, 0⟩, TriOp.setStatus (fun _ => true) ACCEPTED]
    [] (fun t ht => absurd ht (List.not_mem_nil t))
    (by
      intro op hop
      rcases List.mem_cons.mp hop with rfl | hop'
      · show (0 : ℚ) < signedArea2 ccwWitnessPts ⟨0, 1, 2, 0⟩
        norm_num [signedArea2, ccwWitnessPts]
      · rcases List.mem_cons.mp hop' with rfl | hop''
        · trivial
        · cases hop'')

/-! ## The quadtree index (C6)

`TMRQuadNode` is declared in src/unnamed/part_001 with the constants
`MAX_DEPTH = 30` and `NODES_PER_LEVEL = 10`; its member implementations are
not in the snapshot and are modelled from the spec (§4.2).  Depth is
represented by the remaining budget `MAX_DEPTH - depth`, so budget `0` means
the node sits at the maximum depth. -/

/-- `TMRQuadNode::MAX_DEPTH` (src/unnamed/part_001). -/
def MAX_DEPTH : ℕ := 30

/-- `TMRQuadNode::NODES_PER_LEVEL` (src/unnamed/part_001). -/
def NODES_PER_LEVEL : ℕ := 10

/-- `TMRQuadDomain` (src/unnamed/part_001): the rectangular domain bounds of
a quadtree node. -/
structure TMRQuadDomain where
  xlow : ℚ
  xhigh : ℚ
  ylow : ℚ
  yhigh : ℚ
deriving DecidableEq, Repr

/-- A quadtree node: either a leaf holding a bucket of
`(id, x, y)` entries, or an interior node split at the midpoint `(x, y)`
with four children. -/
inductive TMRQuadNode where
  | leaf (bucket : List (ℕ × ℚ × ℚ))
  | branch (x y : ℚ) (low_left low_right up_left up_right : TMRQuadNode)
deriving DecidableEq, Repr

/-- The lower-left quarter of a domain under the midpoint split. -/
def lowLeftDomain (d : TMRQuadDomain) : TMRQuadDomain :=
  ⟨d.xlow, (d.xlow + d.xhigh) / 2, d.ylow, (d.ylow + d.yhigh) / 2⟩

/-- The lower-right quarter of a domain under the midpoint split. -/
def lowRightDomain (d : TMRQuadDomain) : TMRQuadDomain :=
  ⟨(d.xlow + d.xhigh) / 2, d.xhigh, d.ylow, (d.ylow + d.yhigh) / 2⟩

/-- The upper-left quarter of a domain under the midpoint split. -/
def upLeftDomain (d : TMRQuadDomain) : TMRQuadDomain :=
  ⟨d.xlow, (d.xlow + d.xhigh) / 2, (d.ylow + d.yhigh) / 2, d.yhigh⟩

/-- The upper-right quarter of a domain under the midpoint split. -/
def upRightDomain (d : TMRQuadDomain) : TMRQuadDomain :=
  ⟨(d.xlow + d.xhigh) / 2, d.xhigh, (d.ylow + d.yhigh) / 2, d.yhigh⟩

/-- Insertion once the maximum depth has been reached — Modelled from the
spec (§4.2): "past that depth, buckets grow beyond the nominal size"; the
entry is routed to the leaf for its quadrant and simply appended. -/
def appendAtMaxDepth : TMRQuadNode → ℕ × ℚ × ℚ → TMRQuadNode
  | .leaf bucket, e => .leaf (bucket ++ [e])
  | .branch x y ll lr ul ur, e =>
    if e.2.1 < x then
      if e.2.2 < y then .branch x y (appendAtMaxDepth ll e) lr ul ur
      else .branch x y ll lr (appendAtMaxDepth ul e) ur
    else
      if e.2.2 < y then .branch x y ll (appendAtMaxDepth lr e) ul ur
      else .branch x y ll lr ul (appendAtMaxDepth ur e)

/-- `TMRQuadNode::addNode` — Modelled from the spec (§4.2): descend to the
appropriate leaf, append, and on overflow of the `NODES_PER_LEVEL` bucket
subdivide into four children by midpoint split and redistribute the points
(each redistributed point descends into its quadrant's child, cascading if a
child overflows in turn); at the maximum depth (budget `0`) the bucket grows
without subdividing. -/
def addNode : ℕ → TMRQuadDomain → TMRQuadNode → ℕ × ℚ × ℚ → TMRQuadNode
  | 0, _, n, e => appendAtMaxDepth n e
  | b + 1, d, .leaf bucket, e =>
    if bucket.length < NODES_PER_LEVEL then .leaf (bucket ++ [e])
    else
      let x := (d.xlow + d.xhigh) / 2
      let y := (d.ylow + d.yhigh) / 2
      let pts := bucket ++ [e]
      .branch x y
        ((pts.filter fun p => decide (p.2.1 < x) && decide (p.2.2 < y)).foldl
          (addNode b (lowLeftDomain d)) (.leaf []))
        ((pts.filter fun p => decide (¬p.2.1 < x) && decide (p.2.2 < y)).foldl
          (addNode b (lowRightDomain d)) (.leaf []))
        ((pts.filter fun p => decide (p.2.1 < x) && decide (¬p.2.2 < y)).foldl
          (addNode b (upLeftDomain d)) (.leaf []))
        ((pts.filter fun p =>
            decide (¬p.2.1 < x) && decide (¬p.2.2 < y)).foldl
          (addNode b (upRightDomain d)) (.leaf []))
  | b + 1, d, .branch x y ll lr ul ur, e =>
    if e.2.1 < x then
      if e.2.2 < y then
        .branch x y (addNode b (lowLeftDomain d) ll e) lr ul ur
      else .branch x y ll lr (addNode b (upLeftDomain d) ul e) ur
    else
      if e.2.2 < y then
        .branch x y ll (addNode b (lowRightDomain d) lr e) ul ur
      else .branch x y ll lr ul (addNode b (upRightDomain d) ur e)

/-- The subdivision a full leaf undergoes: midpoint split and redistribution
of all its points into the four fresh children, one depth level down. -/
def subdivideLeaf (b : ℕ) (d : TMRQuadDomain) (pts : List (ℕ × ℚ × ℚ)) :
    TMRQuadNode :=
  let x := (d.xlow + d.xhigh) / 2
  let y := (d.ylow + d.yhigh) / 2
  .branch x y
    ((pts.filter fun p => decide (p.2.1 < x) && decide (p.2.2 < y)).foldl
      (addNode b (lowLeftDomain d)) (.leaf []))
    ((pts.filter fun p => decide (¬p.2.1 < x) && decide (p.2.2 < y)).foldl
      (addNode b (lowRightDomain d)) (.leaf []))
    ((pts.filter fun p => decide (p.2.1 < x) && decide (¬p.2.2 < y)).foldl
      (addNode b (upLeftDomain d)) (.leaf []))
    ((pts.filter fun p => decide (¬p.2.1 < x) && decide (¬p.2.2 < y)).foldl
      (addNode b (upRightDomain d)) (.leaf []))

/-- The depth-indexed bucket bound: every node strictly above the maximum
depth (positive remaining budget) holds at most `NODES_PER_LEVEL` entries,
and interior nodes never sit at the maximum depth. -/
def DepthBounded : ℕ → TMRQuadNode → Prop
  | b, .leaf bucket => b = 0 ∨ bucket.length ≤ NODES_PER_LEVEL
  | 0, .branch _ _ _ _ _ _ => False
  | b + 1, .branch _ _ ll lr ul ur =>
    DepthBounded b ll ∧ DepthBounded b lr ∧ DepthBounded b ul ∧
      DepthBounded b ur

theorem foldl_preserve {α β : Type} (P : α → Prop) (f : α → β → α)
    (hf : ∀ a b, P a → P (f a b)) :
    ∀ (l : List β) (a : α), P a → P (l.foldl f a) := by
  intro l
  induction l with
  | nil => intro a ha; exact ha
  | cons x xs ih => intro a ha; exact ih (f a x) (hf a x ha)

/-- Insertion preserves the depth-indexed bucket bound. -/
theorem addNode_bounded :
    ∀ (b : ℕ) (d : TMRQuadDomain) (n : TMRQuadNode) (e : ℕ × ℚ × ℚ),
      DepthBounded b n → DepthBounded b (addNode b d n e) := by
  intro b
  induction b with
  | zero =>
    intro d n e hn
    cases n with
    | leaf bucket => exact Or.inl rfl
    | branch x y ll lr ul ur => exact absurd hn (by simp [DepthBounded])
  | succ b ih =>
    intro d n e hn
    cases n with
    | leaf bucket =>
      simp only [addNode]
      split
      · rename_i hlen
        right
        simp only [List.length_append, List.length_singleton]
        omega
      · have hleaf : DepthBounded b (TMRQuadNode.leaf []) := by
          simp [DepthBounded, NODES_PER_LEVEL]
        refine ⟨?_, ?_, ?_, ?_⟩ <;>
          exact foldl_preserve (DepthBounded b) _
            (fun a p ha => ih _ a p ha) _ _ hleaf
    | branch x y ll lr ul ur =>
      obtain ⟨hll, hlr, hul, hur⟩ : DepthBounded b ll ∧ DepthBounded b lr ∧
          DepthBounded b ul ∧ DepthBounded b ur := hn
      simp only [addNode]
      split_ifs <;>
        exact ⟨by first | exact ih _ _ _ hll | exact hll,
          by first | exact ih _ _ _ hlr | exact hlr,
          by first | exact ih _ _ _ hul | exact hul,
          by first | exact ih _ _ _ hur | exact hur⟩

/-- C6: in the quadtree, every node above the maximum depth holds at most
`NODES_PER_LEVEL = 10` point entries and this bound is preserved by
insertion; an insertion that would overflow a bucket subdivides the node
into four children by midpoint split and redistributes its points; at the
maximum depth (`MAX_DEPTH = 30`, remaining budget `0`) the bucket grows
beyond the nominal size instead of subdividing. -/
theorem quadNode_bucket_bound (b : ℕ) (d : TMRQuadDomain) (n : TMRQuadNode)
    (e : ℕ × ℚ × ℚ) (bucket : List (ℕ × ℚ × ℚ)) :
    MAX_DEPTH = 30 ∧ NODES_PER_LEVEL = 10 ∧
    (DepthBounded b n → DepthBounded b (addNode b d n e)) ∧
    (¬bucket.length < NODES_PER_LEVEL →
      addNode (b + 1) d (.leaf bucket) e = subdivideLeaf b d (bucket ++ [e])) ∧
    addNode 0 d (.leaf bucket) e = .leaf (bucket ++ [e]) := by
  refine ⟨rfl, rfl, addNode_bounded b d n e, ?_, rfl⟩
  intro hlen
  simp only [addNode, subdivideLeaf]
  rw [if_neg hlen]

/-- A bucket already holding `NODES_PER_LEVEL` entries, used to witness the
subdivision branch of C6. -/
def fullBucket : List (ℕ × ℚ × ℚ) :=
  List.replicate 10 (0, 1/4, 1/4)

/-- Witness for C6 on the unit-square domain: inserting into an empty leaf
with one level of budget keeps the bound, inserting into a full bucket
subdivides by midpoint split, and inserting at the maximum depth just grows
the bucket. -/
theorem quadNode_bucket_bound_witness :
    DepthBounded 1 (addNode 1 ⟨0, 1, 0, 1⟩ (.leaf []) (7, 1/2, 1/2)) ∧
      addNode 1 ⟨0, 1, 0, 1⟩ (.leaf fullBucket) (7, 1/2, 1/2) =
        subdivideLeaf 0 ⟨0, 1, 0, 1⟩ (fullBucket ++ [(7, 1/2, 1/2)]) ∧
      addNode 0 ⟨0, 1, 0, 1⟩ (.leaf fullBucket) (7, 1/2, 1/2) =
        .leaf (fullBucket ++ [(7, 1/2, 1/2)]) := by
  refine ⟨?_, ?_, ?_⟩
  · exact (quadNode_bucket_bound 1 ⟨0, 1, 0, 1⟩ (.leaf []) (7, 1/2, 1/2)
      []).2.2.1 (Or.inr (by simp [NODES_PER_LEVEL]))
  · exact (quadNode_bucket_bound 0 ⟨0, 1, 0, 1⟩ (.leaf []) (7, 1/2, 1/2)
      fullBucket).2.2.2.1 (by simp [fullBucket, NODES_PER_LEVEL])
  · exact (quadNode_bucket_bound 0 ⟨0, 1, 0, 1⟩ (.leaf []) (7, 1/2, 1/2)
      fullBucket).2.2.2.2

/-! ## VTK output (C7) -/

/-- The four fixed header lines of the VTK file. -/
def vtkHeaderLines : List String :=
  ["# vtk DataFile Version 3.0", "vtk output", "ASCII",
   "DATASET UNSTRUCTURED_GRID"]

/-- One line of the `CELLS` section: the vertex count `3` followed by the
triangle's three 0-indexed point identifiers. -/
def vtkCellLine (c : ℕ × ℕ × ℕ) : String :=
  "3 " ++ toString c.1 ++ " " ++ toString c.2.1 ++ " " ++ toString c.2.2

/-- `TMRTriangularize::writeToVTK` — Modelled from the spec (§6): the file is
an ASCII VTK 3.0 `UNSTRUCTURED_GRID`; after the four header lines come
`POINTS n float` with one formatted point per line (the formatting of a
single point is the collaborator `fmtPoint`, covering both the 3D and the
parametric `param_space` variants), `CELLS n_tri 4·n_tri` with one
`3 u v w` line per triangle, and `CELL_TYPES n_tri` with the value `5`
(VTK triangle) once per triangle. -/
def writeToVTKLines {α : Type} (fmtPoint : α → String) (points : List α)
    (conn : List (ℕ × ℕ × ℕ)) : List String :=
  vtkHeaderLines
    ++ ("POINTS " ++ toString points.length ++ " float")
      :: points.map fmtPoint
    ++ ("CELLS " ++ toString conn.length ++ " " ++ toString (4 * conn.length))
      :: conn.map vtkCellLine
    ++ ("CELL_TYPES " ++ toString conn.length)
      :: conn.map fun _ => "5"

/-- C7: the emitted file starts with exactly the four header lines
`"# vtk DataFile Version 3.0"`, `"vtk output"`, `"ASCII"`,
`"DATASET UNSTRUCTURED_GRID"`, followed by a `POINTS n float` section, a
`CELLS n_tri 4·n_tri` section in which every triangle line begins with `3`
and carries the triangle's 0-indexed identifiers, and a `CELL_TYPES` section
holding the value `5` once per triangle. -/
theorem writeToVTK_spec {α : Type} (fmtPoint : α → String) (points : List α)
    (conn : List (ℕ × ℕ × ℕ)) :
    writeToVTKLines fmtPoint points conn =
      ["# vtk DataFile Version 3.0", "vtk output", "ASCII",
        "DATASET UNSTRUCTURED_GRID",
        "POINTS " ++ toString points.length ++ " float"]
        ++ points.map fmtPoint
        ++ ("CELLS " ++ toString conn.length ++ " "
            ++ toString (4 * conn.length))
          :: conn.map vtkCellLine
        ++ ("CELL_TYPES " ++ toString conn.length)
          :: List.replicate conn.length "5" ∧
    (∀ c ∈ conn, vtkCellLine c =
      "3 " ++ toString c.1 ++ " " ++ toString c.2.1 ++ " "
        ++ toString c.2.2 ∧
      ∃ rest, vtkCellLine c = "3 " ++ rest) := by
  constructor
  · have hrep : (conn.map fun _ => "5") = List.replicate conn.length "5" := by
      induction conn with
      | nil => rfl
      | cons c cs ih => simp [List.replicate, ih]
    simp only [writeToVTKLines, vtkHeaderLines, hrep]
    rfl
  · intro c _
    exact ⟨rfl, toString c.1 ++ " " ++ toString c.2.1 ++ " "
      ++ toString c.2.2, rfl⟩

/-- Witness for C7 on a one-point, one-triangle mesh. -/
theorem writeToVTK_spec_witness :
    writeToVTKLines (fun n : ℕ => toString n) [42] [(0, 1, 2)] =
      ["# vtk DataFile Version 3.0", "vtk output", "ASCII",
        "DATASET UNSTRUCTURED_GRID", "POINTS 1 float", "42", "CELLS 1 4",
        "3 0 1 2", "CELL_TYPES 1", "5"] ∧
      vtkCellLine (0, 1, 2) = "3 0 1 2" := by
  have h := writeToVTK_spec (fun n : ℕ => toString n) [42] [(0, 1, 2)]
  refine ⟨?_, (h.2 (0, 1, 2) (by simp)).1⟩
  rw [h.1]
  rfl

end TMR
